import Mathlib

/-!
Verification of the batch-classification pipeline
(`MTA_multi_batch_short_only.py`, `MTA_multi_batch_PARALLEL.py`,
`analysis/compare_classifications.py`, `prepare_dataset.py`).

The Python sources are shallowly embedded: pure arithmetic becomes Nat
arithmetic, the per-batch filesystem artifacts become explicit record state,
remote calls become a static remote-model record, and Python strings become
`List Char`.  Every definition is translated from the source files; comments
cite the function and line range embedded.
-/

namespace MtaBatch

/-! ## Batch sizing (`calculate_batch_sizes`)

`MTA_multi_batch_short_only.py` lines 178-239 and
`MTA_multi_batch_PARALLEL.py` lines 132-171.  The module-level configuration
constants (SECTION 2 of either script) are gathered into a structure so the
sizing arithmetic can be stated for any constraint triple, as the spec does.
The hard-coded `estimated_kb_per_request = 12.0` is kept: since `12.0/1024`
is a dyadic rational, Python's `int(MAX_FILE_SIZE_MB / (12.0/1024))` equals
`MAX_FILE_SIZE_MB * 1024 / 12` in exact (floor) arithmetic, which is how it
is rendered here. -/

structure SizingConfig where
  /-- `MAX_REQUESTS_PER_BATCH` (50000 in the scripts). -/
  maxRequestsPerBatch : ℕ
  /-- `MAX_FILE_SIZE_MB` (100 in the scripts). -/
  maxFileSizeMB : ℕ
  /-- `MAX_ENQUEUED_TOKENS_PER_DAY` (1 000 000 000 in the scripts). -/
  maxEnqueuedTokensPerDay : ℕ
  /-- `ESTIMATED_TOKENS_PER_REQUEST` (3400 sequential, 3200 parallel). -/
  estTokensPerRequest : ℕ
deriving DecidableEq

/-- The configuration constants of `MTA_multi_batch_short_only.py`
(lines 66-76). -/
def seqConfig : SizingConfig :=
  { maxRequestsPerBatch := 50000
    maxFileSizeMB := 100
    maxEnqueuedTokensPerDay := 1000000000
    estTokensPerRequest := 3400 }

/-- `max_requests_for_daily_tokens = MAX_ENQUEUED_TOKENS_PER_DAY //
ESTIMATED_TOKENS_PER_REQUEST` (short_only line 204).  Computed and printed by
the script but never fed into the `min`. -/
def maxRequestsForDailyTokens (cfg : SizingConfig) : ℕ :=
  cfg.maxEnqueuedTokensPerDay / cfg.estTokensPerRequest

/-- `max_requests_for_size = int(MAX_FILE_SIZE_MB / (12.0 / 1024))`
(short_only lines 209-211, PARALLEL lines 141-143), rendered in exact
arithmetic as `MAX_FILE_SIZE_MB * 1024 / 12`. -/
def maxRequestsForSize (cfg : SizingConfig) : ℕ :=
  cfg.maxFileSizeMB * 1024 / 12

/-- `max_requests_per_batch = min(max_requests_for_size,
MAX_REQUESTS_PER_BATCH)` — short_only line 217.  Note the minimum ranges over
two of the three constraint-derived limits only. -/
def seqEffectiveLimit (cfg : SizingConfig) : ℕ :=
  min (maxRequestsForSize cfg) cfg.maxRequestsPerBatch

/-- `max_requests_per_batch = int(MAX_FILE_SIZE_MB / estimated_mb_per_request)`
— PARALLEL line 143.  The parallel script uses the file-size limit alone. -/
def parEffectiveLimit (cfg : SizingConfig) : ℕ :=
  maxRequestsForSize cfg

/-- `num_batches = (total_startups + max_requests_per_batch - 1) //
max_requests_per_batch` (short_only line 224, PARALLEL line 154): the ceiling
of `N / limit` written with integer division. -/
def numBatches (total limit : ℕ) : ℕ :=
  (total + limit - 1) / limit

/-- `startups_per_batch = total_startups // num_batches`
(short_only line 225, PARALLEL line 155). -/
def startupsPerBatch (total limit : ℕ) : ℕ :=
  total / numBatches total limit

/-- The three-way minimum the spec claims is used:
`min(max requests per submission, size-derived limit, token-derived limit)`. -/
def specEffectiveLimit (cfg : SizingConfig) : ℕ :=
  min (min (maxRequestsForSize cfg) cfg.maxRequestsPerBatch)
    (maxRequestsForDailyTokens cfg)

/-! ## Batch index ranges (`create_single_batch_file` /
`create_all_batch_files`)

short_only lines 260-268 and PARALLEL lines 197-204: batch `b` (1-based)
covers dataframe rows `[(b-1)*spb, b*spb)`, except the last batch, which
extends to the total row count. -/

/-- `start_idx = (batch_num - 1) * startups_per_batch`
(short_only line 261). -/
def batchStart (spb b : ℕ) : ℕ := (b - 1) * spb

/-- `end_idx`: `total_startups` for the last batch, otherwise
`start_idx + startups_per_batch` (short_only lines 262-266). -/
def batchEnd (total nb spb b : ℕ) : ℕ :=
  if b = nb then total else batchStart spb b + spb

/-- The number of rows batch `b` receives (`len(batch_df)`). -/
def batchSize (total nb spb b : ℕ) : ℕ :=
  batchEnd total nb spb b - batchStart spb b

/-- The batch number whose half-open row range contains row `i`
(derived bookkeeping, used to state unique membership). -/
def assignedBatch (nb spb i : ℕ) : ℕ :=
  min (i / spb + 1) nb

/-! ## CSV response parsing (`parse_classification_result`)

short_only lines 466-510 and the inline copy in PARALLEL lines 388-400.
Python strings are modelled as `List Char`; `csv.reader` (default dialect:
delimiter `,`, quote `"`, doubled-quote escape) is modelled by the state
machine `csvSplitGo`, which parses the first CSV record of the input, the
only record the code reads (`rows[0]`).  A `,` or record terminator inside
a quoted field is literal; a doubled quote inside a quoted field is one
literal quote; a quote elsewhere is an ordinary character. -/

inductive SplitSt
  | fieldStart
  | inField
  | inQuoted
  | afterQuote
deriving DecidableEq

/-- One pass of the CSV reader over the first record.  `cur` is the field
being accumulated, `acc` the fields already finished.  `\n` (or `\r`) outside
quotes terminates the record, as in Python's `csv` module. -/
def csvSplitGo : List Char → SplitSt → List Char → List (List Char) → List (List Char)
  | [], _, cur, acc => acc ++ [cur]
  | c :: rest, .fieldStart, cur, acc =>
      if c = ',' then csvSplitGo rest .fieldStart [] (acc ++ [cur])
      else if c = '"' then csvSplitGo rest .inQuoted cur acc
      else if c = '\n' ∨ c = '\r' then acc ++ [cur]
      else csvSplitGo rest .inField (cur ++ [c]) acc
  | c :: rest, .inField, cur, acc =>
      if c = ',' then csvSplitGo rest .fieldStart [] (acc ++ [cur])
      else if c = '\n' ∨ c = '\r' then acc ++ [cur]
      else csvSplitGo rest .inField (cur ++ [c]) acc
  | c :: rest, .inQuoted, cur, acc =>
      if c = '"' then csvSplitGo rest .afterQuote cur acc
      else csvSplitGo rest .inQuoted (cur ++ [c]) acc
  | c :: rest, .afterQuote, cur, acc =>
      if c = '"' then csvSplitGo rest .inQuoted (cur ++ ['"']) acc
      else if c = ',' then csvSplitGo rest .fieldStart [] (acc ++ [cur])
      else if c = '\n' ∨ c = '\r' then acc ++ [cur]
      else csvSplitGo rest .inField (cur ++ [c]) acc

/-- The fields of the first CSV record of `s` (`list(csv.reader(...))[0]`).
On empty input Python yields no rows while this yields one empty field; both
fail the seven-field check identically, which is all the code inspects. -/
def csvSplitLine (s : List Char) : List (List Char) :=
  csvSplitGo s .fieldStart [] []

/-- Python's `str.strip()`: whitespace removed from both ends (the code
applies it to the whole content and to every extracted field). -/
def pyStrip (s : List Char) : List Char :=
  ((s.dropWhile Char.isWhitespace).reverse.dropWhile Char.isWhitespace).reverse

/-- The seven-column result dict of `parse_classification_result`
(short_only lines 477-485). -/
structure ClassificationResult where
  CompanyID : List Char
  CompanyName : List Char
  AI_native : List Char
  Confidence_1to5 : List Char
  Reasons_3_points : List Char
  Sources_used : List Char
  Verification_critique : List Char
deriving DecidableEq

/-- The all-empty dict the function initialises (and returns when the row
has fewer than seven fields). -/
def emptyResult : ClassificationResult :=
  ⟨[], [], [], [], [], [], []⟩

/-- `data_row[i].strip()`. -/
def fieldAt (row : List (List Char)) (i : ℕ) : List Char :=
  pyStrip (row.getD i [])

/-- `parse_classification_result` (short_only lines 466-510): strip the
content, split the first CSV record, and fill the seven fields when at least
seven are present; otherwise every field stays empty.  The `except` clause
never fires for the CSV split of a string, so it has no counterpart here. -/
def parse_classification_result (content : List Char) : ClassificationResult :=
  let row := csvSplitLine (pyStrip content)
  if 7 ≤ row.length then
    ⟨fieldAt row 0, fieldAt row 1, fieldAt row 2, fieldAt row 3,
      fieldAt row 4, fieldAt row 5, fieldAt row 6⟩
  else emptyResult

/-- Loop body of the sequential `download_batch_results` (short_only lines
561-576): parse each response content and keep the record only when its
`CompanyID` is non-empty (`if parsed['CompanyID']`). -/
def seqKeepLine (content : List Char) : Option ClassificationResult :=
  let parsed := parse_classification_result content
  if parsed.CompanyID ≠ [] then some parsed else none

/-- `parsed_results` accumulated by the sequential download loop. -/
def seqParsedResults (contents : List (List Char)) : List ClassificationResult :=
  contents.filterMap seqKeepLine

/-- Loop body of the parallel `download_all_results` (PARALLEL lines
383-402): keep the record whenever the first CSV row has at least seven
fields; there is no `CompanyID` check in this variant. -/
def parKeepLine (content : List Char) : Option ClassificationResult :=
  let row := csvSplitLine (pyStrip content)
  if 7 ≤ row.length then
    some ⟨fieldAt row 0, fieldAt row 1, fieldAt row 2, fieldAt row 3,
      fieldAt row 4, fieldAt row 5, fieldAt row 6⟩
  else none

/-- `parsed_results` accumulated by the parallel download loop. -/
def parParsedResults (contents : List (List Char)) : List ClassificationResult :=
  contents.filterMap parKeepLine

/-- The messages the sequential download step prints about parse outcomes
(short_only lines 579-589): only the number of successfully parsed rows is
reported (`Saved N results`, or a no-valid-results warning).  Nothing is
printed for a line whose CSV split has fewer than seven fields — the `except`
handler fires only for JSON-envelope errors, not for short CSV rows. -/
def seqDownloadLog (contents : List (List Char)) : List String :=
  if (seqParsedResults contents).length ≠ 0 then
    ["Saved " ++ toString (seqParsedResults contents).length ++ " results"]
  else
    ["No valid results parsed"]

/-- The number of response lines dropped because their CSV split yielded
fewer than seven fields. -/
def shortLineCount (contents : List (List Char)) : ℕ :=
  contents.countP fun c => !(7 ≤ (csvSplitLine (pyStrip c)).length : Bool)

/-! ## CSV encoding of a result record

The spec side of claim C8: the model emits one comma-delimited record of
seven fields, fields containing the delimiter, the quote character or a
record terminator being quoted, with quote characters doubled — the standard
CSV convention that `csv.reader` inverts. -/

/-- A field must be quoted when it contains a delimiter, quote or record
terminator. -/
def needsQuoting (f : List Char) : Bool :=
  f.any fun c => c = ',' || c = '"' || c = '\n' || c = '\r'

/-- Double every quote character (the CSV `""` escape). -/
def escapeQuotes : List Char → List Char
  | [] => []
  | c :: rest =>
      if c = '"' then '"' :: '"' :: escapeQuotes rest
      else c :: escapeQuotes rest

/-- Encode one field, quoting when necessary. -/
def csvEncodeField (f : List Char) : List Char :=
  if needsQuoting f then '"' :: (escapeQuotes f ++ ['"']) else f

/-- Encode a record: encoded fields joined by commas. -/
def csvEncodeLine : List (List Char) → List Char
  | [] => []
  | [f] => csvEncodeField f
  | f :: g :: fs => csvEncodeField f ++ ',' :: csvEncodeLine (g :: fs)

/-! ## Result aggregation (`merge_all_results`)

short_only lines 594-644 and PARALLEL lines 415-451: the per-batch output
files matching `batch_*_output.csv` are listed, sorted with Python's
`sorted` — which compares the filename STRINGS code point by code point —
and their tables concatenated in that order by `pd.concat`, which preserves
row order within each table. -/

/-- The filename `batch_{n}_output.csv` of batch `n`'s parsed table
(short_only line 521).  The enclosing directory prefix is shared by all
entries and cannot affect the comparison, so it is omitted. -/
def outputFileName (b : ℕ) : List Char :=
  "batch_".data ++ (toString b).data ++ "_output.csv".data

/-- Python string `<`: lexicographic comparison by code point. -/
def charListLt : List Char → List Char → Bool
  | [], [] => false
  | [], _ :: _ => true
  | _ :: _, [] => false
  | a :: as, b :: bs =>
      if a < b then true
      else if b < a then false
      else charListLt as bs

/-- Insertion step of an insertion sort with comparator `lt`. -/
def insertBy (lt : ℕ → ℕ → Bool) (x : ℕ) : List ℕ → List ℕ
  | [] => [x]
  | y :: ys => if lt x y then x :: y :: ys else y :: insertBy lt x ys

/-- Insertion sort with comparator `lt` (a model of Python's stable
`sorted`; insertion sort is stable, and ties cannot occur here because
distinct batch numbers give distinct filenames). -/
def sortBy (lt : ℕ → ℕ → Bool) : List ℕ → List ℕ
  | [] => []
  | x :: xs => insertBy lt x (sortBy lt xs)

/-- The comparison `sorted` actually applies: filename order. -/
def fileNameLt (a b : ℕ) : Bool :=
  charListLt (outputFileName a) (outputFileName b)

/-- The comparison the spec describes: ascending batch number. -/
def numericLt (a b : ℕ) : Bool :=
  a < b

/-- `merge_all_results`: given the batch numbers whose output tables exist
(in arbitrary directory-listing order) and each batch's rows, concatenate the
tables in sorted-filename order. -/
def merge_all_results {α : Type} (present : List ℕ) (rows : ℕ → List α) :
    List α :=
  ((sortBy fileNameLt present).map rows).flatten

/-! ## Polling loops

`check_single_batch_status` (short_only lines 650-697) and
`monitor_all_batches` (PARALLEL lines 287-347).  The remote service reports
lifecycle states as lower-case strings. -/

/-- The four terminal lifecycle states (spec §4.2). -/
def terminalStates : List String :=
  ["completed", "failed", "expired", "cancelled"]

/-- The fixed sleep between polls: `time.sleep(60)` in both scripts
(short_only lines 462 and 693, PARALLEL line 347). -/
def pollIntervalSeconds : ℕ := 60

/-- One iteration of the `while True` loop of `check_single_batch_status`
(short_only lines 673-697): `some status` when the loop returns (status
`completed`, `failed`, `expired` or `cancelled`), `none` when it sleeps
`pollIntervalSeconds` and polls again. -/
def check_single_batch_step (status : String) : Option String :=
  if status = "completed" ∨ status = "failed" ∨ status = "expired"
      ∨ status = "cancelled" then
    some status
  else none

/-- Whether one entry of `batch_ids` leaves `all_done` true during a pass of
`monitor_all_batches`: an entry without a submission identifier is counted
failed but does not clear `all_done` (PARALLEL lines 307-309); with an
identifier, only the `completed` and `failed` branches leave `all_done` true
— every other status, `expired` and `cancelled` included, falls into the
`else` that clears it (lines 316-331). -/
def monitorEntryDone (status : String → String) (e : ℕ × Option String) : Bool :=
  match e.2 with
  | none => true
  | some bid => status bid = "completed" || status bid = "failed"

/-- `all_done` at the end of one pass of the monitoring loop; the loop of
`monitor_all_batches` exits exactly when this is true (PARALLEL lines
340-344). -/
def monitorAllDone (status : String → String) (ids : List (ℕ × Option String)) :
    Bool :=
  ids.all (monitorEntryDone status)

/-! ## Orchestration state machine (`main` of both scripts)

The per-batch filesystem artifacts and the remote-effect counters are
explicit state.  The remote service is a static model: `status b` is the
lifecycle state reported for the submission recorded for batch `b`, and
`uploadFails b` says whether the submit call for batch `b` raises a
transient error.  A submission is one `files.create` + `batches.create`
pair; a download is one `files.content` call. -/

structure OrchState where
  /-- `batch_files/batch_requests/batch_{b}_requests.jsonl` exists. -/
  requestFile : ℕ → Bool
  /-- `batch_files/batch_ids/batch_{b}_id.txt` exists. -/
  idFile : ℕ → Bool
  /-- `batch_files/batch_results/batch_{b}_results.jsonl` exists. -/
  resultsJsonl : ℕ → Bool
  /-- `batch_files/batch_outputs/batch_{b}_output.csv` exists. -/
  outputCsv : ℕ → Bool
  /-- Number of remote submissions performed so far in this run. -/
  submissions : ℕ
  /-- Number of result downloads performed so far in this run. -/
  downloads : ℕ

structure RemoteModel where
  status : ℕ → String
  uploadFails : ℕ → Bool

/-- `create_single_batch_file` (short_only lines 241-319): skip when the
request file already exists (lines 274-280), otherwise write it.  Local work
only, no remote call. -/
def create_single_batch_file (st : OrchState) (b : ℕ) : OrchState :=
  if st.requestFile b then st
  else { st with requestFile := fun n => if n = b then true else st.requestFile n }

/-- `upload_batch` (short_only lines 321-376): upload the request file,
create the remote batch and persist the identifier.  There is no existence
check of the identifier file, so the submission happens on every call.
Returns `false` when the remote call raises (the `except` branch returns
`None`). -/
def upload_batch (rem : RemoteModel) (st : OrchState) (b : ℕ) :
    OrchState × Bool :=
  if rem.uploadFails b then (st, false)
  else
    ({ st with
        idFile := fun n => if n = b then true else st.idFile n
        submissions := st.submissions + 1 }, true)

/-- `check_single_batch_status` run against the static remote: the status it
returns when that status is terminal, `none` when the loop would poll
forever. -/
def check_single_batch_final (rem : RemoteModel) (b : ℕ) : Option String :=
  check_single_batch_step (rem.status b)

/-- `download_batch_results` (short_only lines 512-592): returns without
effect when the identifier file is missing or the batch is not `completed`;
otherwise fetches the raw results (one download) and writes both the raw
and the parsed artifact.  There is no existence check of the output CSV. -/
def download_batch_results (rem : RemoteModel) (st : OrchState) (b : ℕ) :
    OrchState :=
  if ¬ st.idFile b then st
  else if rem.status b ≠ "completed" then st
  else
    { st with
        downloads := st.downloads + 1
        resultsJsonl := fun n => if n = b then true else st.resultsJsonl n
        outputCsv := fun n => if n = b then true else st.outputCsv n }

/-- One iteration of the sequential `main` loop (short_only lines 729-770):
create, upload — returning from `main` when the upload fails (lines
741-743) — monitor, download when `completed` (any other terminal state
continues to the next batch), then delete the request file.  The Boolean is
`false` when `main` returns early. -/
def seq_process_batch (rem : RemoteModel) (st : OrchState) (b : ℕ) :
    OrchState × Bool :=
  let st1 := create_single_batch_file st b
  let p := upload_batch rem st1 b
  if ¬ p.2 then (p.1, false)
  else
    match check_single_batch_final rem b with
    | some s =>
        if s = "completed" then
          let st3 := download_batch_results rem p.1 b
          ({ st3 with
              requestFile := fun n => if n = b then false else st3.requestFile n },
            true)
        else (p.1, true)
    | none => (p.1, false)

/-- The batch numbers `1, 2, ..., n`. -/
def batchRange (n : ℕ) : List ℕ :=
  (List.range n).map (· + 1)

/-- The sequential `main` over a worklist of batch numbers. -/
def seq_run (rem : RemoteModel) : OrchState → List ℕ → OrchState
  | st, [] => st
  | st, b :: bs =>
      let p := seq_process_batch rem st b
      if p.2 then seq_run rem p.1 bs else p.1

/-- The sequential `main` (short_only lines 699-776); the final merge step
performs no remote calls and is modelled by `merge_all_results`. -/
def seq_main (rem : RemoteModel) (st : OrchState) (n : ℕ) : OrchState :=
  seq_run rem st (batchRange n)

/-- `create_all_batch_files` (PARALLEL lines 173-237): create every missing
request file, skipping the ones that exist (lines 191-195). -/
def create_all_batch_files (st : OrchState) (n : ℕ) : OrchState :=
  (batchRange n).foldl create_single_batch_file st

/-- One iteration of the `upload_all_batches` loop (PARALLEL lines 246-282):
skip when the identifier file exists (lines 251-256); on a transient upload
error record the batch with no identifier and continue (lines 280-282);
otherwise submit and record the identifier. -/
def upload_step (rem : RemoteModel) (acc : OrchState × List (ℕ × Bool)) (b : ℕ) :
    OrchState × List (ℕ × Bool) :=
  if acc.1.idFile b then (acc.1, acc.2 ++ [(b, true)])
  else if rem.uploadFails b then (acc.1, acc.2 ++ [(b, false)])
  else
    ({ acc.1 with
        idFile := fun n => if n = b then true else acc.1.idFile n
        submissions := acc.1.submissions + 1 }, acc.2 ++ [(b, true)])

/-- `upload_all_batches` (PARALLEL lines 239-285): returns the state and the
`batch_ids` list, one entry per batch, `true` when an identifier exists. -/
def upload_all_batches (rem : RemoteModel) (st : OrchState) (n : ℕ) :
    OrchState × List (ℕ × Bool) :=
  (batchRange n).foldl (upload_step rem) (st, [])

/-- One iteration of `download_all_results` (PARALLEL lines 353-413): skip
without an identifier (lines 354-356), skip when the output CSV exists
(lines 361-364), skip when not `completed` (lines 369-371); otherwise
download once and write both artifacts. -/
def download_step (rem : RemoteModel) (st : OrchState) (e : ℕ × Bool) :
    OrchState :=
  if ¬ e.2 then st
  else if st.outputCsv e.1 then st
  else if rem.status e.1 ≠ "completed" then st
  else
    { st with
        downloads := st.downloads + 1
        resultsJsonl := fun n => if n = e.1 then true else st.resultsJsonl n
        outputCsv := fun n => if n = e.1 then true else st.outputCsv n }

/-- `download_all_results` (PARALLEL lines 349-413). -/
def download_all_results (rem : RemoteModel) (st : OrchState)
    (ids : List (ℕ × Bool)) : OrchState :=
  ids.foldl (download_step rem) st

/-- The parallel `main` (PARALLEL lines 457-488), minus the monitoring pass,
which performs only status retrievals, and the merge, which is local. -/
def par_main (rem : RemoteModel) (st : OrchState) (n : ℕ) : OrchState :=
  let st1 := create_all_batch_files st n
  let p := upload_all_batches rem st1 n
  download_all_results rem p.1 p.2

/-! ## Comparator (`analysis/compare_classifications.py`)

Lines 70-99: the two classification tables are inner-joined on `CompanyID`
with `pd.merge`, the two flag columns coerced by
`pd.to_numeric(errors='coerce')` — a non-numeric value becoming missing —
and the agreement rate computed as the fraction of joined rows whose flags
compare equal, times 100.  A missing value compares equal to nothing
(pandas `NaN == NaN` is false). -/

structure ResultRow (α : Type) where
  id : α
  flag : Option ℚ
deriving DecidableEq

/-- `pd.merge(t1, t2, on='CompanyID')`: inner join — one output row for
every pair of input rows sharing an identifier, left row order preserved. -/
def innerMerge {α : Type} [DecidableEq α] (t1 t2 : List (ResultRow α)) :
    List (ResultRow α × ResultRow α) :=
  t1.flatMap fun r1 => (t2.filter fun r2 => r2.id = r1.id).map fun r2 => (r1, r2)

/-- Row-level agreement after numeric coercion: both flags present and
equal. -/
def flagEq (a b : Option ℚ) : Bool :=
  match a, b with
  | some x, some y => x = y
  | _, _ => false

/-- `agreement_rate = agreement.sum() / len(df_merged) * 100`
(compare_classifications lines 92-93). -/
def agreement_rate {α : Type} [DecidableEq α] (t1 t2 : List (ResultRow α)) : ℚ :=
  (((innerMerge t1 t2).countP fun p => flagEq p.1.flag p.2.flag : ℕ) : ℚ)
    / (((innerMerge t1 t2).length : ℕ) : ℚ) * 100

lemma numBatches_pos (total limit : ℕ) (ht : 1 ≤ total) (hl : 1 ≤ limit) :
    1 ≤ numBatches total limit := by
  unfold numBatches
  exact (Nat.one_le_div_iff (by omega)).mpr (by omega)

lemma numBatches_le_total (total limit : ℕ) (hl : 1 ≤ limit) :
    numBatches total limit ≤ total := by
  unfold numBatches
  have h1 : total ≤ limit * total := Nat.le_mul_of_pos_left total (by omega)
  have h2 : total + limit - 1 ≤ limit * total + (limit - 1) := by omega
  exact (Nat.div_le_iff_le_mul_add_pred (by omega)).mpr h2

lemma startupsPerBatch_pos (total limit : ℕ) (ht : 1 ≤ total) (hl : 1 ≤ limit) :
    1 ≤ startupsPerBatch total limit := by
  unfold startupsPerBatch
  exact (Nat.one_le_div_iff
    (numBatches_pos total limit ht hl)).mpr (numBatches_le_total total limit hl)

lemma pred_mul_spb_le_total (total limit : ℕ) :
    (numBatches total limit - 1) * startupsPerBatch total limit ≤ total := by
  have h1 : (numBatches total limit - 1) * startupsPerBatch total limit ≤
      numBatches total limit * startupsPerBatch total limit :=
    Nat.mul_le_mul_right _ (Nat.sub_le _ _)
  have h2 : numBatches total limit * startupsPerBatch total limit ≤ total := by
    unfold startupsPerBatch
    rw [Nat.mul_comm]
    exact Nat.div_mul_le_self total (numBatches total limit)
  omega

lemma assignedBatch_eq_right {nb spb i : ℕ} (h : nb ≤ i / spb + 1) :
    assignedBatch nb spb i = nb :=
  min_eq_right h

lemma assignedBatch_eq_left {nb spb i : ℕ} (h : i / spb + 1 ≤ nb) :
    assignedBatch nb spb i = i / spb + 1 :=
  min_eq_left h

lemma mem_batch_iff_aux (total nb spb : ℕ) (hnb1 : 1 ≤ nb) (hspb1 : 1 ≤ spb)
    {i : ℕ} (hi : i < total) (b : ℕ) :
    (b ∈ Finset.Icc 1 nb ∧ batchStart spb b ≤ i ∧ i < batchEnd total nb spb b)
    ↔ b = assignedBatch nb spb i := by
  constructor
  · rintro ⟨hmem, hlo, hhi⟩
    rw [Finset.mem_Icc] at hmem
    simp only [batchStart] at hlo
    by_cases hb : b = nb
    · have h2 : b - 1 ≤ i / spb := (Nat.le_div_iff_mul_le (by omega)).mpr hlo
      rw [hb, assignedBatch_eq_right (by omega)]
    · have hend : batchEnd total nb spb b = (b - 1) * spb + spb := by
        simp [batchEnd, batchStart, hb]
      have hdiv : i / spb = b - 1 := by
        apply Nat.div_eq_of_lt_le hlo
        rw [hend] at hhi
        calc i < (b - 1) * spb + spb := hhi
          _ = (b - 1 + 1) * spb := by ring
      rw [assignedBatch_eq_left (by omega), hdiv]
      omega
  · rintro rfl
    have hq : spb * (i / spb) + i % spb = i := Nat.div_add_mod i spb
    have hr : i % spb < spb := Nat.mod_lt i (by omega)
    refine ⟨?_, ?_, ?_⟩
    · rw [Finset.mem_Icc]
      unfold assignedBatch
      exact ⟨le_min (Nat.succ_le_succ (Nat.zero_le _)) hnb1, min_le_right _ _⟩
    · rcases le_or_lt nb (i / spb + 1) with h | h
      · rw [assignedBatch_eq_right h]
        simp only [batchStart]
        calc (nb - 1) * spb ≤ (i / spb) * spb :=
              Nat.mul_le_mul_right spb (by omega)
          _ ≤ i := Nat.div_mul_le_self i spb
      · rw [assignedBatch_eq_left (le_of_lt h)]
        simp only [batchStart, Nat.add_sub_cancel]
        exact Nat.div_mul_le_self i spb
    · rcases le_or_lt nb (i / spb + 1) with h | h
      · rw [assignedBatch_eq_right h]
        simp [batchEnd, hi]
      · rw [assignedBatch_eq_left (le_of_lt h)]
        have hne : i / spb + 1 ≠ nb := by omega
        rw [batchEnd, if_neg hne]
        simp only [batchStart, Nat.add_sub_cancel]
        rw [Nat.mul_comm]
        omega

lemma mem_batch_iff (total limit : ℕ) (ht : 1 ≤ total) (hl : 1 ≤ limit)
    {i : ℕ} (hi : i < total) (b : ℕ) :
    (b ∈ Finset.Icc 1 (numBatches total limit) ∧
      batchStart (startupsPerBatch total limit) b ≤ i ∧
      i < batchEnd total (numBatches total limit) (startupsPerBatch total limit) b)
    ↔ b = assignedBatch (numBatches total limit) (startupsPerBatch total limit) i :=
  mem_batch_iff_aux total _ _ (numBatches_pos total limit ht hl)
    (startupsPerBatch_pos total limit ht hl) hi b

lemma sum_batchSize (total limit : ℕ) (ht : 1 ≤ total) (hl : 1 ≤ limit) :
    (Finset.Icc 1 (numBatches total limit)).sum
      (batchSize total (numBatches total limit) (startupsPerBatch total limit))
      = total := by
  have hnb1 : 1 ≤ numBatches total limit := numBatches_pos total limit ht hl
  have hkspb : (numBatches total limit - 1) * startupsPerBatch total limit ≤ total :=
    pred_mul_spb_le_total total limit
  obtain ⟨k, hk⟩ : ∃ k, numBatches total limit = k + 1 :=
    ⟨numBatches total limit - 1, by omega⟩
  rw [hk] at hkspb ⊢
  rw [Finset.sum_Icc_succ_top (Nat.le_add_left 1 k)]
  have hmid : ∀ b ∈ Finset.Icc 1 k,
      batchSize total (k + 1) (startupsPerBatch total limit) b
        = startupsPerBatch total limit := by
    intro b hb
    rw [Finset.mem_Icc] at hb
    have hbne : b ≠ k + 1 := by omega
    simp [batchSize, batchEnd, batchStart, hbne]
  rw [Finset.sum_congr rfl hmid, Finset.sum_const, Nat.card_Icc, smul_eq_mul]
  have hlast : batchSize total (k + 1) (startupsPerBatch total limit) (k + 1)
      = total - k * startupsPerBatch total limit := by
    simp [batchSize, batchEnd, batchStart]
  rw [hlast]
  have h2 : (k + 1 - 1) * startupsPerBatch total limit
      = k * startupsPerBatch total limit := by
    norm_num
  rw [h2] at hkspb
  have h3 : k + 1 - 1 = k := by omega
  rw [h3]
  omega

lemma numBatches_mul_ge (total limit : ℕ) (hl : 1 ≤ limit) :
    total ≤ numBatches total limit * limit := by
  unfold numBatches
  have hq : limit * ((total + limit - 1) / limit) + (total + limit - 1) % limit
      = total + limit - 1 := Nat.div_add_mod (total + limit - 1) limit
  have hr : (total + limit - 1) % limit < limit := Nat.mod_lt _ (by omega)
  rw [Nat.mul_comm]
  omega

lemma numBatches_pred_mul_lt (total limit : ℕ) (ht : 1 ≤ total) (hl : 1 ≤ limit) :
    (numBatches total limit - 1) * limit < total := by
  unfold numBatches
  have hq : limit * ((total + limit - 1) / limit) + (total + limit - 1) % limit
      = total + limit - 1 := Nat.div_add_mod (total + limit - 1) limit
  have hr : (total + limit - 1) % limit < limit := Nat.mod_lt _ (by omega)
  rcases Nat.eq_zero_or_pos ((total + limit - 1) / limit) with h0 | h0
  · rw [h0]
    simpa using ht
  · rw [Nat.sub_mul, one_mul, Nat.mul_comm]
    omega

/-- C1 (amended): whenever the file-size-derived per-batch limit is the most
restrictive of the three constraint-derived limits — which holds for the
shipped configuration constants — both scripts' effective limit coincides
with the three-way minimum the spec describes, and the computed `num_batches`
is exactly `ceil(N / effective_limit)` (characterised as the least `k` with
`N ≤ k * effective_limit`).  As stated over all constraint triples the claim
fails, because `calculate_batch_sizes` in the sequential script takes the
minimum of only the size-derived and max-requests limits (the token-derived
limit is computed but unused), and the parallel script uses the size-derived
limit alone. -/
theorem c1_batch_count_ceil_amended (cfg : SizingConfig) (total : ℕ)
    (ht : 1 ≤ total) (hpos : 1 ≤ maxRequestsForSize cfg)
    (hreq : maxRequestsForSize cfg ≤ cfg.maxRequestsPerBatch)
    (htok : maxRequestsForSize cfg ≤ maxRequestsForDailyTokens cfg) :
    seqEffectiveLimit cfg = specEffectiveLimit cfg
    ∧ parEffectiveLimit cfg = specEffectiveLimit cfg
    ∧ total ≤ numBatches total (specEffectiveLimit cfg) * specEffectiveLimit cfg
    ∧ (numBatches total (specEffectiveLimit cfg) - 1) * specEffectiveLimit cfg
        < total := by
  have hseq : seqEffectiveLimit cfg = maxRequestsForSize cfg := min_eq_left hreq
  have hspec : specEffectiveLimit cfg = maxRequestsForSize cfg := by
    unfold specEffectiveLimit
    rw [min_eq_left hreq, min_eq_left htok]
  refine ⟨by rw [hseq, hspec], by rw [hspec]; rfl, ?_, ?_⟩
  · rw [hspec]
    exact numBatches_mul_ge total _ hpos
  · rw [hspec]
    exact numBatches_pred_mul_lt total _ ht hpos

/-- C1 (amended), witness: with the sequential script's shipped constants
(size limit 8533, request limit 50000, token limit 294117) and 121001 input
records the hypotheses hold, so `num_batches` is the exact ceiling. -/
theorem c1_batch_count_ceil_amended_witness :
    (1 ≤ 121001 ∧ 1 ≤ maxRequestsForSize seqConfig
      ∧ maxRequestsForSize seqConfig ≤ seqConfig.maxRequestsPerBatch
      ∧ maxRequestsForSize seqConfig ≤ maxRequestsForDailyTokens seqConfig)
    ∧ (seqEffectiveLimit seqConfig = specEffectiveLimit seqConfig
      ∧ parEffectiveLimit seqConfig = specEffectiveLimit seqConfig
      ∧ 121001 ≤ numBatches 121001 (specEffectiveLimit seqConfig)
          * specEffectiveLimit seqConfig
      ∧ (numBatches 121001 (specEffectiveLimit seqConfig) - 1)
          * specEffectiveLimit seqConfig < 121001) :=
  ⟨⟨by decide, by decide, by decide, by decide⟩,
    c1_batch_count_ceil_amended seqConfig 121001
      (by decide) (by decide) (by decide) (by decide)⟩

/-- C1, counterexample: with max requests 10, max file size 1 MB (size-derived
limit 85) and a daily token quota of 3400 at 3400 estimated tokens per request
(token-derived limit 1), the code computes `min(85, 10) = 10` and so 1 batch
for 10 records, while the claimed `ceil(N / min(all three))` formula gives
`ceil(10 / 1) = 10` batches. -/
theorem c1_counterexample :
    numBatches 10 (seqEffectiveLimit (SizingConfig.mk 10 1 3400 3400)) = 1
    ∧ numBatches 10 (specEffectiveLimit (SizingConfig.mk 10 1 3400 3400)) = 10
    ∧ numBatches 10 (seqEffectiveLimit (SizingConfig.mk 10 1 3400 3400))
        ≠ numBatches 10 (specEffectiveLimit (SizingConfig.mk 10 1 3400 3400)) := by
  decide

/-- C7: for every record count `N ≥ 1` and per-batch limit `≥ 1`, the row
ranges taken by `create_single_batch_file` (and `create_all_batch_files`)
assign every record index to exactly one batch, the batch sizes sum to `N`,
and every batch except the last has size `N // num_batches`; the last batch
absorbs the remainder. -/
theorem c7_partition_exact (total limit : ℕ) (ht : 1 ≤ total) (hl : 1 ≤ limit) :
    (Finset.Icc 1 (numBatches total limit)).sum
        (batchSize total (numBatches total limit) (startupsPerBatch total limit))
      = total
    ∧ (∀ b, 1 ≤ b → b < numBatches total limit →
        batchSize total (numBatches total limit) (startupsPerBatch total limit) b
          = startupsPerBatch total limit)
    ∧ ∀ i, i < total → ∃! b, b ∈ Finset.Icc 1 (numBatches total limit) ∧
        batchStart (startupsPerBatch total limit) b ≤ i ∧
        i < batchEnd total (numBatches total limit) (startupsPerBatch total limit) b := by
  refine ⟨sum_batchSize total limit ht hl, ?_, ?_⟩
  · intro b hb1 hb2
    have hbne : b ≠ numBatches total limit := by omega
    simp [batchSize, batchEnd, batchStart, hbne]
  · intro i hi
    exact ⟨assignedBatch (numBatches total limit) (startupsPerBatch total limit) i,
      (mem_batch_iff total limit ht hl hi _).mpr rfl,
      fun y hy => (mem_batch_iff total limit ht hl hi y).mp hy⟩

lemma go_plain_chars (f : List Char)
    (h : ∀ c ∈ f, c ≠ ',' ∧ c ≠ '"' ∧ c ≠ '\n' ∧ c ≠ '\r') :
    ∀ rest cur acc, csvSplitGo (f ++ rest) SplitSt.inField cur acc
      = csvSplitGo rest SplitSt.inField (cur ++ f) acc := by
  induction f with
  | nil => intro rest cur acc; simp
  | cons c t ih =>
      intro rest cur acc
      obtain ⟨hc1, hc2, hc3, hc4⟩ := h c (List.mem_cons_self c t)
      have ht : ∀ x ∈ t, x ≠ ',' ∧ x ≠ '"' ∧ x ≠ '\n' ∧ x ≠ '\r' :=
        fun x hx => h x (List.mem_cons_of_mem c hx)
      simp [csvSplitGo, hc1, hc2, hc3, hc4, ih ht]

lemma go_quoted (f : List Char) :
    ∀ rest cur acc, csvSplitGo (escapeQuotes f ++ '"' :: rest) SplitSt.inQuoted cur acc
      = csvSplitGo rest SplitSt.afterQuote (cur ++ f) acc := by
  induction f with
  | nil => intro rest cur acc; simp [escapeQuotes, csvSplitGo]
  | cons c t ih =>
      intro rest cur acc
      by_cases hc : c = '"'
      · subst hc
        simp [escapeQuotes, csvSplitGo, ih]
      · simp [escapeQuotes, csvSplitGo, hc, ih]

lemma notQuoting_spec {f : List Char} (hq : needsQuoting f = false) :
    ∀ c ∈ f, c ≠ ',' ∧ c ≠ '"' ∧ c ≠ '\n' ∧ c ≠ '\r' := by
  intro c hc
  have := (List.any_eq_false.mp hq) c hc
  simp only [Bool.or_eq_true, decide_eq_true_eq] at this
  tauto

lemma go_encField_comma (f : List Char) :
    ∀ rest acc, csvSplitGo (csvEncodeField f ++ ',' :: rest) SplitSt.fieldStart [] acc
      = csvSplitGo rest SplitSt.fieldStart [] (acc ++ [f]) := by
  intro rest acc
  by_cases hq : needsQuoting f
  · have h1 : csvEncodeField f ++ ',' :: rest
        = '"' :: (escapeQuotes f ++ '"' :: (',' :: rest)) := by
      simp [csvEncodeField, hq]
    rw [h1]
    have h2 : csvSplitGo ('"' :: (escapeQuotes f ++ '"' :: (',' :: rest)))
        SplitSt.fieldStart [] acc
        = csvSplitGo (escapeQuotes f ++ '"' :: (',' :: rest)) SplitSt.inQuoted [] acc := by
      simp [csvSplitGo]
    rw [h2, go_quoted f (',' :: rest) [] acc]
    simp [csvSplitGo]
  · have hq' : needsQuoting f = false := by simpa using hq
    simp only [csvEncodeField, if_neg hq]
    cases f with
    | nil => simp [csvSplitGo]
    | cons c t =>
        obtain ⟨hc1, hc2, hc3, hc4⟩ := notQuoting_spec hq' c (List.mem_cons_self c t)
        have ht : ∀ x ∈ t, x ≠ ',' ∧ x ≠ '"' ∧ x ≠ '\n' ∧ x ≠ '\r' :=
          fun x hx => notQuoting_spec hq' x (List.mem_cons_of_mem c hx)
        have h3 : csvSplitGo ((c :: t) ++ ',' :: rest) SplitSt.fieldStart [] acc
            = csvSplitGo (t ++ ',' :: rest) SplitSt.inField [c] acc := by
          simp [csvSplitGo, hc1, hc2, hc3, hc4]
        rw [h3, go_plain_chars t ht (',' :: rest) [c] acc]
        simp [csvSplitGo]

lemma go_encField_last (f : List Char) :
    ∀ acc, csvSplitGo (csvEncodeField f) SplitSt.fieldStart [] acc = acc ++ [f] := by
  intro acc
  by_cases hq : needsQuoting f
  · have h1 : csvEncodeField f = '"' :: (escapeQuotes f ++ '"' :: ([] : List Char)) := by
      simp [csvEncodeField, hq]
    rw [h1]
    have h2 : csvSplitGo ('"' :: (escapeQuotes f ++ '"' :: ([] : List Char)))
        SplitSt.fieldStart [] acc
        = csvSplitGo (escapeQuotes f ++ '"' :: ([] : List Char)) SplitSt.inQuoted [] acc := by
      simp [csvSplitGo]
    rw [h2, go_quoted f [] [] acc]
    simp [csvSplitGo]
  · have hq' : needsQuoting f = false := by simpa using hq
    simp only [csvEncodeField, if_neg hq]
    cases f with
    | nil => simp [csvSplitGo]
    | cons c t =>
        obtain ⟨hc1, hc2, hc3, hc4⟩ := notQuoting_spec hq' c (List.mem_cons_self c t)
        have ht : ∀ x ∈ t, x ≠ ',' ∧ x ≠ '"' ∧ x ≠ '\n' ∧ x ≠ '\r' :=
          fun x hx => notQuoting_spec hq' x (List.mem_cons_of_mem c hx)
        have h3 : csvSplitGo (c :: t) SplitSt.fieldStart [] acc
            = csvSplitGo (t ++ []) SplitSt.inField [c] acc := by
          simp [csvSplitGo, hc1, hc2, hc3, hc4]
        rw [h3, go_plain_chars t ht [] [c] acc]
        simp [csvSplitGo]

lemma csvSplitGo_encodeLine (fs : List (List Char)) (hne : fs ≠ []) :
    ∀ acc, csvSplitGo (csvEncodeLine fs) SplitSt.fieldStart [] acc = acc ++ fs := by
  induction fs with
  | nil => exact absurd rfl hne
  | cons f rest ih =>
      intro acc
      cases rest with
      | nil => exact go_encField_last f acc
      | cons g t =>
          simp only [csvEncodeLine]
          rw [go_encField_comma f (csvEncodeLine (g :: t)) acc]
          rw [ih (by simp) (acc ++ [f])]
          simp

lemma csvSplitLine_encodeLine (fs : List (List Char)) (hne : fs ≠ []) :
    csvSplitLine (csvEncodeLine fs) = fs := by
  unfold csvSplitLine
  simpa using csvSplitGo_encodeLine fs hne []

lemma head_not_ws_of_dropWhile_eq {c : Char} {t : List Char}
    (h : List.dropWhile Char.isWhitespace (c :: t) = c :: t) :
    c.isWhitespace = false := by
  by_cases hc : c.isWhitespace
  · rw [List.dropWhile_cons, if_pos hc] at h
    have h1 : (List.dropWhile Char.isWhitespace t).length ≤ t.length :=
      (List.dropWhile_sublist _).length_le
    have h2 := congrArg List.length h
    simp only [List.length_cons] at h2
    omega
  · simpa using hc

lemma dropWhile_eq_self_cons {p : Char → Bool} {c : Char} {t : List Char}
    (h : p c = false) :
    List.dropWhile p (c :: t) = c :: t := by
  rw [List.dropWhile_cons, if_neg (by simp [h])]

lemma strip_inv_dropWhile {f : List Char} (h : pyStrip f = f) :
    List.dropWhile Char.isWhitespace f = f := by
  have h1 : (pyStrip f).length ≤ (List.dropWhile Char.isWhitespace f).length := by
    unfold pyStrip
    rw [List.length_reverse]
    calc (((f.dropWhile Char.isWhitespace).reverse).dropWhile Char.isWhitespace).length
        ≤ (f.dropWhile Char.isWhitespace).reverse.length :=
          (List.dropWhile_sublist _).length_le
      _ = (f.dropWhile Char.isWhitespace).length := List.length_reverse _
  have h2 : (List.dropWhile Char.isWhitespace f).length ≤ f.length :=
    (List.dropWhile_sublist _).length_le
  have h3 := congrArg List.length h
  exact (List.dropWhile_sublist _).eq_of_length (by omega)

lemma strip_inv_reverse_dropWhile {f : List Char} (h : pyStrip f = f) :
    List.dropWhile Char.isWhitespace f.reverse = f.reverse := by
  have h1 := strip_inv_dropWhile h
  have h2 : (f.reverse.dropWhile Char.isWhitespace).reverse = f := by
    have h3 : pyStrip f = (f.reverse.dropWhile Char.isWhitespace).reverse := by
      unfold pyStrip
      rw [h1]
    rw [← h3, h]
  have h4 := congrArg List.reverse h2
  simpa using h4

lemma pyStrip_eq_self_of {s : List Char}
    (ha : List.dropWhile Char.isWhitespace s = s)
    (hb : List.dropWhile Char.isWhitespace s.reverse = s.reverse) :
    pyStrip s = s := by
  unfold pyStrip
  rw [ha, hb, List.reverse_reverse]

lemma encField_head_cases (f : List Char)
    (h : List.dropWhile Char.isWhitespace f = f) :
    csvEncodeField f = []
      ∨ ∃ c t, csvEncodeField f = c :: t ∧ c.isWhitespace = false := by
  by_cases hq : needsQuoting f
  · right
    exact ⟨'"', escapeQuotes f ++ ['"'], by simp [csvEncodeField, hq], by decide⟩
  · cases f with
    | nil => left; simp [csvEncodeField, needsQuoting]
    | cons c t =>
        right
        exact ⟨c, t, by simp [csvEncodeField, hq], head_not_ws_of_dropWhile_eq h⟩

lemma encLine_dropWhile (f0 : List Char) (rest : List (List Char))
    (h : List.dropWhile Char.isWhitespace f0 = f0) :
    List.dropWhile Char.isWhitespace (csvEncodeLine (f0 :: rest))
      = csvEncodeLine (f0 :: rest) := by
  rcases encField_head_cases f0 h with h0 | ⟨c, t, h0, hc⟩
  · cases rest with
    | nil => simp [csvEncodeLine, h0]
    | cons g tl =>
        have he : csvEncodeLine (f0 :: g :: tl) = ',' :: csvEncodeLine (g :: tl) := by
          simp [csvEncodeLine, h0]
        rw [he]
        exact dropWhile_eq_self_cons (by decide)
  · cases rest with
    | nil =>
        have he : csvEncodeLine [f0] = c :: t := h0
        rw [he]
        exact dropWhile_eq_self_cons hc
    | cons g tl =>
        have he : csvEncodeLine (f0 :: g :: tl)
            = c :: (t ++ ',' :: csvEncodeLine (g :: tl)) := by
          simp [csvEncodeLine, h0]
        rw [he]
        exact dropWhile_eq_self_cons hc

lemma encField_last_cases (f : List Char)
    (h : List.dropWhile Char.isWhitespace f.reverse = f.reverse) :
    csvEncodeField f = []
      ∨ ∃ c t, (csvEncodeField f).reverse = c :: t ∧ c.isWhitespace = false := by
  by_cases hq : needsQuoting f
  · right
    refine ⟨'"', (escapeQuotes f).reverse ++ ['"'], ?_, by decide⟩
    simp [csvEncodeField, hq, List.reverse_append]
  · cases hf : f.reverse with
    | nil =>
        left
        have : f = [] := by simpa using congrArg List.reverse hf
        simp [this, csvEncodeField, needsQuoting]
    | cons c t =>
        right
        rw [hf] at h
        exact ⟨c, t, by simp [csvEncodeField, hq, hf], head_not_ws_of_dropWhile_eq h⟩

lemma encLine_reverse_dropWhile (fs : List (List Char)) (hne : fs ≠ [])
    (h : List.dropWhile Char.isWhitespace (fs.getLast hne).reverse
          = (fs.getLast hne).reverse) :
    List.dropWhile Char.isWhitespace (csvEncodeLine fs).reverse
      = (csvEncodeLine fs).reverse := by
  induction fs with
  | nil => exact absurd rfl hne
  | cons f rest ih =>
      cases rest with
      | nil =>
          have hf : ([f] : List (List Char)).getLast (by simp) = f := rfl
          rw [hf] at h
          rcases encField_last_cases f h with h0 | ⟨c, t, h0, hc⟩
          · simp [csvEncodeLine, h0]
          · have he : (csvEncodeLine [f]).reverse = c :: t := h0
            rw [he]
            exact dropWhile_eq_self_cons hc
      | cons g tl =>
          have hgl : (f :: g :: tl).getLast (by simp)
              = (g :: tl).getLast (by simp) := List.getLast_cons _
          rw [hgl] at h
          have ih2 := ih (by simp) h
          have hrev : (csvEncodeLine (f :: g :: tl)).reverse
              = (csvEncodeLine (g :: tl)).reverse
                  ++ ',' :: (csvEncodeField f).reverse := by
            simp [csvEncodeLine, List.reverse_append]
          rw [hrev]
          cases hBr : (csvEncodeLine (g :: tl)).reverse with
          | nil =>
              simp only [List.nil_append]
              exact dropWhile_eq_self_cons (by decide)
          | cons c t =>
              rw [hBr] at ih2
              have hc : c.isWhitespace = false := head_not_ws_of_dropWhile_eq ih2
              rw [List.cons_append]
              exact dropWhile_eq_self_cons hc

lemma mem_insertBy (lt : ℕ → ℕ → Bool) (x : ℕ) (l : List ℕ) (y : ℕ) :
    y ∈ insertBy lt x l ↔ y = x ∨ y ∈ l := by
  induction l with
  | nil => simp [insertBy]
  | cons z zs ih =>
      simp only [insertBy]
      by_cases h : lt x z
      · simp [h]
      · simp [h, ih]
        tauto

lemma mem_sortBy (lt : ℕ → ℕ → Bool) (l : List ℕ) (y : ℕ) :
    y ∈ sortBy lt l ↔ y ∈ l := by
  induction l with
  | nil => simp [sortBy]
  | cons x xs ih =>
      simp only [sortBy]
      rw [mem_insertBy, ih]
      simp

lemma insertBy_congr (lt1 lt2 : ℕ → ℕ → Bool) (x : ℕ) (l : List ℕ)
    (h : ∀ y ∈ l, lt1 x y = lt2 x y) :
    insertBy lt1 x l = insertBy lt2 x l := by
  induction l with
  | nil => rfl
  | cons z zs ih =>
      simp only [insertBy]
      rw [h z (List.mem_cons_self z zs)]
      by_cases h2 : lt2 x z = true
      · simp [h2]
      · simp only [h2, if_false, Bool.false_eq_true]
        rw [ih (fun y hy => h y (List.mem_cons_of_mem z hy))]

lemma sortBy_congr (lt1 lt2 : ℕ → ℕ → Bool) (l : List ℕ)
    (h : ∀ x ∈ l, ∀ y ∈ l, lt1 x y = lt2 x y) :
    sortBy lt1 l = sortBy lt2 l := by
  induction l with
  | nil => rfl
  | cons x xs ih =>
      simp only [sortBy]
      rw [ih (fun a ha b hb =>
        h a (List.mem_cons_of_mem x ha) b (List.mem_cons_of_mem x hb))]
      apply insertBy_congr
      intro y hy
      exact h x (List.mem_cons_self x xs) y
        (List.mem_cons_of_mem x ((mem_sortBy lt2 xs y).mp hy))

lemma fileNameLt_eq_numericLt_below_ten :
    ∀ a < 10, ∀ b < 10, fileNameLt a b = numericLt a b := by
  decide

/-- C3 (amended): the combined table is the concatenation of the per-batch
tables taken in lexicographic order of their filenames, preserving row order
within each batch; when every batch number is a single digit (in particular
for at most nine batches) this coincides with ascending numeric order.  The
claim's for-ten-or-more-batches clause fails: `sorted` compares filename
strings, so `batch_10_output.csv` sorts before `batch_1_output.csv` (see the
counterexample). -/
theorem c3_merge_order_amended {α : Type} (present : List ℕ) (rows : ℕ → List α)
    (h : ∀ b ∈ present, b < 10) :
    merge_all_results present rows
      = ((sortBy numericLt present).map rows).flatten := by
  unfold merge_all_results
  rw [sortBy_congr fileNameLt numericLt present
    (fun x hx y hy => fileNameLt_eq_numericLt_below_ten x (h x hx) y (h y hy))]

/-- C3 (amended), witness: three single-digit batches listed out of order
merge in ascending numeric order with rows kept in order inside each batch. -/
theorem c3_merge_order_amended_witness :
    (∀ b ∈ [3, 1, 2], b < 10)
    ∧ merge_all_results [3, 1, 2] (fun b => [10 * b, 10 * b + 1])
        = ((sortBy numericLt [3, 1, 2]).map (fun b => [10 * b, 10 * b + 1])).flatten :=
  ⟨by decide,
    c3_merge_order_amended [3, 1, 2] (fun b => [10 * b, 10 * b + 1]) (by decide)⟩

/-- C3, counterexample: with ten batches of one row each the merged table is
not in ascending batch-number order — batch 10's row comes first, because
`batch_10_output.csv` precedes `batch_1_output.csv` lexicographically. -/
theorem c3_counterexample :
    merge_all_results [1, 2, 3, 4, 5, 6, 7, 8, 9, 10] (fun b => [b])
        ≠ [1, 2, 3, 4, 5, 6, 7, 8, 9, 10]
    ∧ merge_all_results [1, 2, 3, 4, 5, 6, 7, 8, 9, 10] (fun b => [b])
        = [10, 1, 2, 3, 4, 5, 6, 7, 8, 9] := by
  decide

lemma filter_id_length {α : Type} [DecidableEq α] (t2 : List (ResultRow α))
    (h2 : (t2.map ResultRow.id).Nodup) (x : α) :
    (t2.filter fun r2 => decide (r2.id = x)).length
      = if x ∈ t2.map ResultRow.id then 1 else 0 := by
  have hc1 : (t2.filter fun r2 => decide (r2.id = x)).length
      = t2.countP fun r2 => decide (r2.id = x) :=
    (List.countP_eq_length_filter _ _).symm
  have hc2 : (t2.map ResultRow.id).countP (fun i => decide (i = x))
      = t2.countP fun r2 => decide (r2.id = x) := by
    rw [List.countP_map]
    rfl
  have hc3 : (t2.map ResultRow.id).count x
      = (t2.map ResultRow.id).countP fun i => decide (i = x) := by
    apply List.countP_congr
    intro i _
    simp
  by_cases hm : x ∈ t2.map ResultRow.id
  · rw [if_pos hm]
    have hle : (t2.map ResultRow.id).count x ≤ 1 :=
      List.nodup_iff_count_le_one.mp h2 x
    have hpos : 0 < (t2.map ResultRow.id).count x := List.count_pos_iff.mpr hm
    omega
  · rw [if_neg hm]
    have hz : (t2.map ResultRow.id).count x = 0 := List.count_eq_zero.mpr hm
    omega

lemma innerMerge_ids {α : Type} [DecidableEq α] (t1 t2 : List (ResultRow α))
    (h2 : (t2.map ResultRow.id).Nodup) :
    ((innerMerge t1 t2).map fun p => p.1.id)
      = (t1.filter fun r1 => decide (r1.id ∈ t2.map ResultRow.id)).map
          ResultRow.id := by
  induction t1 with
  | nil => simp [innerMerge]
  | cons r1 rest ih =>
      have hstep : innerMerge (r1 :: rest) t2
          = ((t2.filter fun r2 => decide (r2.id = r1.id)).map fun r2 => (r1, r2))
            ++ innerMerge rest t2 := by
        simp [innerMerge]
      rw [hstep, List.map_append, ih]
      have hchunk : (((t2.filter fun r2 => decide (r2.id = r1.id)).map
            fun r2 => (r1, r2)).map fun p => p.1.id)
          = List.replicate
              (t2.filter fun r2 => decide (r2.id = r1.id)).length r1.id := by
        rw [List.map_map]
        exact List.map_const' _ r1.id
      rw [hchunk, filter_id_length t2 h2 r1.id]
      by_cases hm : r1.id ∈ t2.map ResultRow.id
      · have hm2 : ∃ a ∈ t2, a.id = r1.id := by simpa [List.mem_map] using hm
        simp [hm, hm2, List.filter_cons]
      · have hm2 : ¬ ∃ a ∈ t2, a.id = r1.id := by simpa [List.mem_map] using hm
        simp [hm, hm2, List.filter_cons]

/-- C9: with the second table's identifiers distinct, the inner join of the
comparator ranges over exactly the first table's rows whose identifier also
occurs in the second table (in order), and when the join has 100 rows of
which 5 disagree on the coerced binary flags the reported agreement rate is
exactly 95 (printed as 95.00%). -/
theorem c9_agreement_rate_95 {α : Type} [DecidableEq α]
    (t1 t2 : List (ResultRow α)) (h2 : (t2.map ResultRow.id).Nodup)
    (hlen : (innerMerge t1 t2).length = 100)
    (hdis : ((innerMerge t1 t2).countP fun p => !flagEq p.1.flag p.2.flag) = 5) :
    ((innerMerge t1 t2).map fun p => p.1.id)
      = (t1.filter fun r1 => decide (r1.id ∈ t2.map ResultRow.id)).map
          ResultRow.id
    ∧ agreement_rate t1 t2 = 95 := by
  refine ⟨innerMerge_ids t1 t2 h2, ?_⟩
  have hsplit := List.length_eq_countP_add_countP
    (fun p => flagEq p.1.flag p.2.flag) (innerMerge t1 t2)
  have hco : ((innerMerge t1 t2).countP
        fun p => decide ¬(flagEq p.1.flag p.2.flag = true))
      = ((innerMerge t1 t2).countP fun p => !flagEq p.1.flag p.2.flag) := by
    apply List.countP_congr
    intro x _
    simp
  have hagree : ((innerMerge t1 t2).countP
      fun p => flagEq p.1.flag p.2.flag) = 95 := by
    omega
  unfold agreement_rate
  rw [hagree, hlen]
  norm_num

set_option maxRecDepth 8000 in
/-- C9, witness: two tables over the identifiers 0..99, the second
disagreeing on flags for identifiers 0..4, give agreement rate exactly
95. -/
theorem c9_agreement_rate_95_witness :
    ((((List.range 100).map fun i =>
        ResultRow.mk i (some (if i < 5 then 0 else 1))).map ResultRow.id).Nodup
      ∧ (innerMerge ((List.range 100).map fun i => ResultRow.mk i (some 1))
          ((List.range 100).map fun i =>
            ResultRow.mk i (some (if i < 5 then 0 else 1)))).length = 100
      ∧ ((innerMerge ((List.range 100).map fun i => ResultRow.mk i (some 1))
          ((List.range 100).map fun i =>
            ResultRow.mk i (some (if i < 5 then 0 else 1)))).countP
          fun p => !flagEq p.1.flag p.2.flag) = 5)
    ∧ agreement_rate ((List.range 100).map fun i => ResultRow.mk i (some 1))
        ((List.range 100).map fun i =>
          ResultRow.mk i (some (if i < 5 then 0 else 1))) = 95 :=
  ⟨⟨by decide, by decide, by decide⟩,
    (c9_agreement_rate_95
      ((List.range 100).map fun i => ResultRow.mk i (some 1))
      ((List.range 100).map fun i =>
        ResultRow.mk i (some (if i < 5 then 0 else 1)))
      (by decide) (by decide) (by decide)).2⟩

/-- C4 (amended): polling sleeps a fixed 60 seconds between checks in both
modes; the sequential single-batch monitor stops polling exactly when it
observes one of the four terminal states `completed`, `failed`, `expired`,
`cancelled`, returning the observed status; the parallel monitoring loop,
however, halts exactly when every monitored batch either lacks a submission
identifier or reports `completed` or `failed` — a batch in the terminal
state `expired` or `cancelled` keeps the parallel loop polling forever (see
the counterexample). -/
theorem c4_polling_amended (s : String) (status : String → String)
    (ids : List (ℕ × Option String)) :
    pollIntervalSeconds = 60
    ∧ ((check_single_batch_step s).isSome ↔ s ∈ terminalStates)
    ∧ (∀ r, check_single_batch_step s = some r → r = s)
    ∧ (monitorAllDone status ids = true ↔
        ∀ p ∈ ids, ∀ bid, p.2 = some bid →
          status bid = "completed" ∨ status bid = "failed") := by
  refine ⟨rfl, ?_, ?_, ?_⟩
  · unfold check_single_batch_step terminalStates
    by_cases h : s = "completed" ∨ s = "failed" ∨ s = "expired" ∨ s = "cancelled"
    · simp only [if_pos h, Option.isSome_some, List.mem_cons]
      simp
      tauto
    · simp only [if_neg h, Option.isSome_none, List.mem_cons]
      simp
      tauto
  · intro r hr
    unfold check_single_batch_step at hr
    by_cases h : s = "completed" ∨ s = "failed" ∨ s = "expired" ∨ s = "cancelled"
    · rw [if_pos h] at hr
      exact (Option.some.inj hr).symm
    · rw [if_neg h] at hr
      exact absurd hr (by simp)
  · unfold monitorAllDone
    rw [List.all_eq_true]
    constructor
    · rintro h ⟨b, o⟩ hp bid hbid
      cases o with
      | none => exact absurd hbid (by simp)
      | some bid2 =>
          have h2 := h ⟨b, some bid2⟩ hp
          simp only [monitorEntryDone, Bool.or_eq_true, decide_eq_true_eq] at h2
          have hb : bid2 = bid := by simpa using hbid
          rw [← hb]
          exact h2
    · rintro h ⟨b, o⟩ hp
      cases o with
      | none => rfl
      | some bid =>
          have h2 := h ⟨b, some bid⟩ hp bid rfl
          simp only [monitorEntryDone, Bool.or_eq_true, decide_eq_true_eq]
          exact h2

/-- C4, counterexample: one batch with an identifier whose remote status is
the terminal state `expired` leaves `all_done` false, so the parallel
monitoring loop does not halt even though every monitored batch is
terminal. -/
theorem c4_counterexample :
    "expired" ∈ terminalStates
    ∧ monitorAllDone (fun _ => "expired") [(1, some ("b1"))] = false := by
  constructor
  · decide
  · rfl

lemma foldl_create_id (st : OrchState) :
    ∀ l : List ℕ, (∀ b ∈ l, st.requestFile b = true) →
      l.foldl create_single_batch_file st = st := by
  intro l
  induction l with
  | nil => intro _; rfl
  | cons b bs ih =>
      intro h
      have h1 : create_single_batch_file st b = st := by
        unfold create_single_batch_file
        rw [if_pos (h b (List.mem_cons_self b bs))]
      simp only [List.foldl_cons, h1]
      exact ih fun x hx => h x (List.mem_cons_of_mem b hx)

lemma foldl_upload_id (rem : RemoteModel) (st : OrchState) :
    ∀ (l : List ℕ) (acc : List (ℕ × Bool)), (∀ b ∈ l, st.idFile b = true) →
      l.foldl (upload_step rem) (st, acc)
        = (st, acc ++ l.map fun b => (b, true)) := by
  intro l
  induction l with
  | nil => intro acc _; simp
  | cons b bs ih =>
      intro acc h
      have h1 : upload_step rem (st, acc) b = (st, acc ++ [(b, true)]) := by
        unfold upload_step
        rw [if_pos (h b (List.mem_cons_self b bs))]
      simp only [List.foldl_cons, h1]
      rw [ih (acc ++ [(b, true)]) fun x hx => h x (List.mem_cons_of_mem b hx)]
      simp

lemma foldl_download_id (rem : RemoteModel) (st : OrchState) :
    ∀ ids : List (ℕ × Bool), (∀ e ∈ ids, st.outputCsv e.1 = true) →
      ids.foldl (download_step rem) st = st := by
  intro ids
  induction ids with
  | nil => intro _; rfl
  | cons e es ih =>
      intro h
      have h1 : download_step rem st e = st := by
        unfold download_step
        by_cases he : e.2 = true
        · simp [he, h e (List.mem_cons_self e es)]
        · simp [he]
      simp only [List.foldl_cons, h1]
      exact ih fun x hx => h x (List.mem_cons_of_mem e hx)

/-- C2 (amended): re-running the PARALLEL orchestrator over a fully
completed prior run — every request file, submission-identifier file and
parsed output present — changes nothing: every create, upload and download
step detects its artifact and skips, so zero new submissions and zero new
downloads happen.  The claim's both-modes clause fails: the sequential
`upload_batch` and `download_batch_results` have no artifact-existence
checks, and the sequential `main` deletes each request file after download,
so a sequential re-run re-submits and re-downloads every batch (see the
counterexample). -/
theorem c2_rerun_idempotent_amended (rem : RemoteModel) (st : OrchState) (n : ℕ)
    (h : ∀ b ∈ batchRange n, st.requestFile b = true ∧ st.idFile b = true
      ∧ st.outputCsv b = true) :
    par_main rem st n = st
    ∧ (par_main rem st n).submissions = st.submissions
    ∧ (par_main rem st n).downloads = st.downloads := by
  have h1 : create_all_batch_files st n = st :=
    foldl_create_id st (batchRange n) fun b hb => (h b hb).1
  have h2 : upload_all_batches rem st n
      = (st, (batchRange n).map fun b => (b, true)) :=
    foldl_upload_id rem st (batchRange n) [] fun b hb => (h b hb).2.1
  have h3 : download_all_results rem st ((batchRange n).map fun b => (b, true))
      = st := by
    apply foldl_download_id
    intro e he
    rw [List.mem_map] at he
    obtain ⟨b, hb, rfl⟩ := he
    exact (h b hb).2.2
  have hmain : par_main rem st n = st := by
    show download_all_results rem
        (upload_all_batches rem (create_all_batch_files st n) n).1
        (upload_all_batches rem (create_all_batch_files st n) n).2 = st
    rw [h1, h2]
    exact h3
  exact ⟨hmain, by rw [hmain], by rw [hmain]⟩

/-- C2 (amended), witness: three completed batches, all artifacts present —
the parallel re-run is a no-op. -/
theorem c2_rerun_idempotent_amended_witness :
    (∀ b ∈ batchRange 3,
      (OrchState.mk (fun _ => true) (fun _ => true) (fun _ => true)
          (fun _ => true) 0 0).requestFile b = true
      ∧ (OrchState.mk (fun _ => true) (fun _ => true) (fun _ => true)
          (fun _ => true) 0 0).idFile b = true
      ∧ (OrchState.mk (fun _ => true) (fun _ => true) (fun _ => true)
          (fun _ => true) 0 0).outputCsv b = true)
    ∧ (par_main (RemoteModel.mk (fun _ => "completed") (fun _ => false))
          (OrchState.mk (fun _ => true) (fun _ => true) (fun _ => true)
            (fun _ => true) 0 0) 3
        = OrchState.mk (fun _ => true) (fun _ => true) (fun _ => true)
            (fun _ => true) 0 0
      ∧ (par_main (RemoteModel.mk (fun _ => "completed") (fun _ => false))
          (OrchState.mk (fun _ => true) (fun _ => true) (fun _ => true)
            (fun _ => true) 0 0) 3).submissions = 0
      ∧ (par_main (RemoteModel.mk (fun _ => "completed") (fun _ => false))
          (OrchState.mk (fun _ => true) (fun _ => true) (fun _ => true)
            (fun _ => true) 0 0) 3).downloads = 0) :=
  ⟨by decide,
    c2_rerun_idempotent_amended
      (RemoteModel.mk (fun _ => "completed") (fun _ => false))
      (OrchState.mk (fun _ => true) (fun _ => true) (fun _ => true)
        (fun _ => true) 0 0) 3 (by decide)⟩

/-- C2, counterexample: after a fully completed sequential run (identifier
and output artifacts present, request files deleted by the cleanup step),
re-running the sequential `main` performs one new submission and one new
download for the single batch instead of the claimed zero: `upload_batch`
and `download_batch_results` never check for their existing artifacts. -/
theorem c2_counterexample :
    (seq_main (RemoteModel.mk (fun _ => "completed") (fun _ => false))
        (OrchState.mk (fun _ => false) (fun _ => true) (fun _ => true)
          (fun _ => true) 0 0) 1).submissions = 1
    ∧ (seq_main (RemoteModel.mk (fun _ => "completed") (fun _ => false))
        (OrchState.mk (fun _ => false) (fun _ => true) (fun _ => true)
          (fun _ => true) 0 0) 1).downloads = 1 := by
  constructor
  · rfl
  · rfl

lemma batchRange_nodup (n : ℕ) : (batchRange n).Nodup := by
  unfold batchRange
  exact (List.nodup_range n).map fun a b hab => by omega

lemma upload_all_spec (rem : RemoteModel) :
    ∀ l : List ℕ, l.Nodup → ∀ (st : OrchState) (acc : List (ℕ × Bool)),
      (l.foldl (upload_step rem) (st, acc)).2
        = acc ++ l.map fun b => (b, st.idFile b || !(rem.uploadFails b)) := by
  intro l
  induction l with
  | nil => intro _ st acc; simp
  | cons b bs ih =>
      intro hnd st acc
      obtain ⟨hb, hbs⟩ := List.nodup_cons.mp hnd
      by_cases h1 : st.idFile b = true
      · have hstep : upload_step rem (st, acc) b = (st, acc ++ [(b, true)]) := by
          unfold upload_step
          rw [if_pos h1]
        simp only [List.foldl_cons, hstep]
        rw [ih hbs st (acc ++ [(b, true)])]
        simp [h1]
      · by_cases h2 : rem.uploadFails b = true
        · have hstep : upload_step rem (st, acc) b = (st, acc ++ [(b, false)]) := by
            unfold upload_step
            rw [if_neg (by simp [h1]), if_pos h2]
          simp only [List.foldl_cons, hstep]
          rw [ih hbs st (acc ++ [(b, false)])]
          simp [h1, h2]
        · have hstep : upload_step rem (st, acc) b
              = ({ st with
                    idFile := fun n => if n = b then true else st.idFile n
                    submissions := st.submissions + 1 }, acc ++ [(b, true)]) := by
            unfold upload_step
            rw [if_neg (by simp [h1]), if_neg h2]
          simp only [List.foldl_cons, hstep]
          rw [ih hbs _ (acc ++ [(b, true)])]
          have hmap : bs.map (fun x => (x,
              (if x = b then true else st.idFile x) || !(rem.uploadFails x)))
              = bs.map fun x => (x, st.idFile x || !(rem.uploadFails x)) := by
            apply List.map_congr_left
            intro x hx
            rw [if_neg (by rintro rfl; exact hb hx)]
          simp only [hmap]
          simp [h1, h2]

/-- C6 (amended): in the parallel mode a transient upload failure is
recorded for its batch (an entry with no identifier) and the loop continues:
`upload_all_batches` returns one entry per batch in order, every batch of
`1..n` being attempted regardless of which uploads fail.  The claim's
both-modes clause fails for the sequential mode: when `upload_batch` fails,
the sequential `main` returns immediately, abandoning all remaining batches
(see the counterexample). -/
theorem c6_upload_failure_amended (rem : RemoteModel) (st : OrchState) (n : ℕ) :
    ((upload_all_batches rem st n).2
      = (batchRange n).map fun b => (b, st.idFile b || !(rem.uploadFails b)))
    ∧ (upload_all_batches rem st n).2.map Prod.fst = batchRange n
    ∧ ∀ b bs, rem.uploadFails b = true → st.idFile b = false →
        seq_run rem st (b :: bs) = create_single_batch_file st b := by
  have h := upload_all_spec rem (batchRange n) (batchRange_nodup n) st []
  refine ⟨by simpa [upload_all_batches] using h, ?_, ?_⟩
  · rw [show (upload_all_batches rem st n).2
        = (batchRange n).map fun b => (b, st.idFile b || !(rem.uploadFails b))
      from by simpa [upload_all_batches] using h]
    rw [List.map_map]
    have hcomp : (Prod.fst ∘ fun b : ℕ => (b, st.idFile b || !(rem.uploadFails b)))
        = id := rfl
    rw [hcomp, List.map_id]
  · intro b bs hfail _
    simp [seq_run, seq_process_batch, upload_batch, hfail]

/-- C6 (amended), witness: with batch 1's upload failing out of two fresh
batches, the parallel loop records the failure and still attempts batch 2,
while the sequential run stops after batch 1's file creation. -/
theorem c6_upload_failure_amended_witness :
    ((upload_all_batches (RemoteModel.mk (fun _ => "completed")
          (fun b => decide (b = 1)))
        (OrchState.mk (fun _ => false) (fun _ => false) (fun _ => false)
          (fun _ => false) 0 0) 2).2
      = (batchRange 2).map fun b =>
          (b, (OrchState.mk (fun _ => false) (fun _ => false) (fun _ => false)
            (fun _ => false) 0 0).idFile b
            || !((RemoteModel.mk (fun _ => "completed")
              (fun b => decide (b = 1))).uploadFails b)))
    ∧ ((RemoteModel.mk (fun _ => "completed")
          (fun b => decide (b = 1))).uploadFails 1 = true
      ∧ seq_run (RemoteModel.mk (fun _ => "completed") (fun b => decide (b = 1)))
          (OrchState.mk (fun _ => false) (fun _ => false) (fun _ => false)
            (fun _ => false) 0 0) (1 :: [2])
        = create_single_batch_file
            (OrchState.mk (fun _ => false) (fun _ => false) (fun _ => false)
              (fun _ => false) 0 0) 1) :=
  ⟨(c6_upload_failure_amended
      (RemoteModel.mk (fun _ => "completed") (fun b => decide (b = 1)))
      (OrchState.mk (fun _ => false) (fun _ => false) (fun _ => false)
        (fun _ => false) 0 0) 2).1,
    by decide,
    (c6_upload_failure_amended
      (RemoteModel.mk (fun _ => "completed") (fun b => decide (b = 1)))
      (OrchState.mk (fun _ => false) (fun _ => false) (fun _ => false)
        (fun _ => false) 0 0) 2).2.2 1 [2] (by decide) (by decide)⟩

/-- C6, counterexample: batch 1's upload fails out of two batches.  The
sequential `main` exits — batch 2 is never created, never uploaded, zero
submissions happen — while the parallel loop on the same inputs records the
failure and still submits batch 2. -/
theorem c6_counterexample :
    (seq_main (RemoteModel.mk (fun _ => "completed") (fun b => decide (b = 1)))
        (OrchState.mk (fun _ => false) (fun _ => false) (fun _ => false)
          (fun _ => false) 0 0) 2).requestFile 2 = false
    ∧ (seq_main (RemoteModel.mk (fun _ => "completed") (fun b => decide (b = 1)))
        (OrchState.mk (fun _ => false) (fun _ => false) (fun _ => false)
          (fun _ => false) 0 0) 2).idFile 2 = false
    ∧ (seq_main (RemoteModel.mk (fun _ => "completed") (fun b => decide (b = 1)))
        (OrchState.mk (fun _ => false) (fun _ => false) (fun _ => false)
          (fun _ => false) 0 0) 2).submissions = 0
    ∧ (upload_all_batches
        (RemoteModel.mk (fun _ => "completed") (fun b => decide (b = 1)))
        (OrchState.mk (fun _ => false) (fun _ => false) (fun _ => false)
          (fun _ => false) 0 0) 2).2 = [(1, false), (2, true)]
    ∧ (upload_all_batches
        (RemoteModel.mk (fun _ => "completed") (fun b => decide (b = 1)))
        (OrchState.mk (fun _ => false) (fun _ => false) (fun _ => false)
          (fun _ => false) 0 0) 2).1.submissions = 1 := by
  refine ⟨rfl, rfl, rfl, ?_, rfl⟩
  rfl

/-- C8 (amended): for any seven field values none of which carries leading
or trailing whitespace — commas, quotes and record terminators inside the
fields being protected by the quoting convention — parsing the CSV encoding
of the seven fields recovers exactly the original seven values.  As
universally stated the claim fails: the parser strips every extracted field
(`data_row[i].strip()`), so a field with leading or trailing whitespace is
recovered modified (see the counterexample). -/
theorem c8_roundtrip_amended (f0 f1 f2 f3 f4 f5 f6 : List Char)
    (h0 : pyStrip f0 = f0) (h1 : pyStrip f1 = f1) (h2 : pyStrip f2 = f2)
    (h3 : pyStrip f3 = f3) (h4 : pyStrip f4 = f4) (h5 : pyStrip f5 = f5)
    (h6 : pyStrip f6 = f6) :
    parse_classification_result (csvEncodeLine [f0, f1, f2, f3, f4, f5, f6])
      = ⟨f0, f1, f2, f3, f4, f5, f6⟩ := by
  have hne : ([f0, f1, f2, f3, f4, f5, f6] : List (List Char)) ≠ [] := by simp
  have hstrip : pyStrip (csvEncodeLine [f0, f1, f2, f3, f4, f5, f6])
      = csvEncodeLine [f0, f1, f2, f3, f4, f5, f6] := by
    apply pyStrip_eq_self_of
    · exact encLine_dropWhile f0 _ (strip_inv_dropWhile h0)
    · have hgl : ([f0, f1, f2, f3, f4, f5, f6] : List (List Char)).getLast hne
          = f6 := rfl
      apply encLine_reverse_dropWhile _ hne
      rw [hgl]
      exact strip_inv_reverse_dropWhile h6
  simp only [parse_classification_result, hstrip, csvSplitLine_encodeLine _ hne]
  simp [fieldAt, h0, h1, h2, h3, h4, h5, h6]

/-- C8 (amended), witness: a record whose rationale field contains a
protected comma round-trips unmodified. -/
theorem c8_roundtrip_amended_witness :
    (pyStrip ("c1".data) = "c1".data ∧ pyStrip ("Acme Inc".data) = "Acme Inc".data
      ∧ pyStrip ("1".data) = "1".data ∧ pyStrip ("5".data) = "5".data
      ∧ pyStrip ("good, fast".data) = "good, fast".data
      ∧ pyStrip ("web".data) = "web".data ∧ pyStrip ("ok".data) = "ok".data)
    ∧ parse_classification_result
        (csvEncodeLine ["c1".data, "Acme Inc".data, "1".data, "5".data,
          "good, fast".data, "web".data, "ok".data])
      = ⟨"c1".data, "Acme Inc".data, "1".data, "5".data,
          "good, fast".data, "web".data, "ok".data⟩ :=
  ⟨⟨by decide, by decide, by decide, by decide, by decide, by decide, by decide⟩,
    c8_roundtrip_amended _ _ _ _ _ _ _
      (by decide) (by decide) (by decide) (by decide)
      (by decide) (by decide) (by decide)⟩

/-- C8, counterexample: a rationale field with a protected comma and a
trailing space is not recovered unmodified — the parser returns it with the
trailing space stripped. -/
theorem c8_counterexample :
    parse_classification_result
        (csvEncodeLine ["c1".data, "Acme".data, "1".data, "5".data,
          "good, fast ".data, "web".data, "ok".data])
      ≠ ⟨"c1".data, "Acme".data, "1".data, "5".data,
          "good, fast ".data, "web".data, "ok".data⟩
    ∧ (parse_classification_result
        (csvEncodeLine ["c1".data, "Acme".data, "1".data, "5".data,
          "good, fast ".data, "web".data, "ok".data])).Reasons_3_points
      = "good, fast".data := by
  decide

/-- C5 (amended): a response line whose delimiter-aware CSV split yields
fewer than seven fields is dropped while the remaining lines are processed
exactly as if it were absent, in both the sequential and the parallel
download loop, and no error aborts the download; but the drop is silent —
the log reports only the count of successfully parsed rows, never a count of
the dropped lines (see the counterexample). -/
theorem c5_short_line_dropped_amended (xs ys : List (List Char)) (bad : List Char)
    (hbad : (csvSplitLine (pyStrip bad)).length < 7) :
    seqParsedResults (xs ++ bad :: ys) = seqParsedResults (xs ++ ys)
    ∧ parParsedResults (xs ++ bad :: ys) = parParsedResults (xs ++ ys) := by
  have hparse : parse_classification_result bad = emptyResult := by
    simp only [parse_classification_result]
    rw [if_neg (by omega)]
  have hseq : seqKeepLine bad = none := by
    simp [seqKeepLine, hparse, emptyResult]
  have hpar : parKeepLine bad = none := by
    simp only [parKeepLine]
    rw [if_neg (by omega)]
  constructor
  · unfold seqParsedResults
    rw [List.filterMap_append, List.filterMap_append,
      List.filterMap_cons_none hseq]
  · unfold parParsedResults
    rw [List.filterMap_append, List.filterMap_append,
      List.filterMap_cons_none hpar]

/-- C5 (amended), witness: a two-field line among one valid line is dropped
and the valid line parses as before, in both loops. -/
theorem c5_short_line_dropped_amended_witness :
    (csvSplitLine (pyStrip ("a,b".data))).length < 7
    ∧ (seqParsedResults (["c1,Acme,1,5,r,s,ok".data] ++ "a,b".data :: [])
        = seqParsedResults (["c1,Acme,1,5,r,s,ok".data] ++ [])
      ∧ parParsedResults (["c1,Acme,1,5,r,s,ok".data] ++ "a,b".data :: [])
        = parParsedResults (["c1,Acme,1,5,r,s,ok".data] ++ [])) :=
  ⟨by decide,
    c5_short_line_dropped_amended ["c1,Acme,1,5,r,s,ok".data] [] ("a,b".data)
      (by decide)⟩

/-- C5, counterexample to the logged-with-a-count part: a run with no short
line and a run with one dropped short line print identical messages, so the
log carries no count of the dropped lines; only the count of parsed rows is
reported. -/
theorem c5_counterexample :
    seqDownloadLog ["c1,Acme,1,5,r,s,ok".data]
      = seqDownloadLog ["c1,Acme,1,5,r,s,ok".data, "a,b".data]
    ∧ shortLineCount ["c1,Acme,1,5,r,s,ok".data] = 0
    ∧ shortLineCount ["c1,Acme,1,5,r,s,ok".data, "a,b".data] = 1 := by
  decide

/-- C10: every row kept by the sequential download loop has a non-empty
`CompanyID`, and a response line with at least seven fields whose first
field strips to the empty string is silently excluded — the output equals
what it would be were the line absent. -/
theorem c10_nonempty_company_id :
    (∀ contents r, r ∈ seqParsedResults contents → r.CompanyID ≠ [])
    ∧ ∀ xs ys line, 7 ≤ (csvSplitLine (pyStrip line)).length →
        fieldAt (csvSplitLine (pyStrip line)) 0 = [] →
        seqParsedResults (xs ++ line :: ys) = seqParsedResults (xs ++ ys) := by
  constructor
  · intro contents r hr
    rw [seqParsedResults, List.mem_filterMap] at hr
    obtain ⟨a, _, hkeep⟩ := hr
    simp only [seqKeepLine] at hkeep
    by_cases hP : (parse_classification_result a).CompanyID ≠ []
    · rw [if_pos hP] at hkeep
      rw [← Option.some.inj hkeep]
      exact hP
    · rw [if_neg hP] at hkeep
      exact absurd hkeep (by simp)
  · intro xs ys line h7 hempty
    have hid : (parse_classification_result line).CompanyID = [] := by
      simp only [parse_classification_result]
      rw [if_pos h7]
      exact hempty
    have hkeep : seqKeepLine line = none := by
      simp [seqKeepLine, hid]
    unfold seqParsedResults
    rw [List.filterMap_append, List.filterMap_append,
      List.filterMap_cons_none hkeep]

/-- C10, witness: a seven-field line with an empty first field is excluded
while a valid companion line is kept. -/
theorem c10_nonempty_company_id_witness :
    (7 ≤ (csvSplitLine (pyStrip (",n,1,5,r,s,ok".data))).length
      ∧ fieldAt (csvSplitLine (pyStrip (",n,1,5,r,s,ok".data))) 0 = [])
    ∧ seqParsedResults (["c1,Acme,1,5,r,s,ok".data] ++ ",n,1,5,r,s,ok".data :: [])
        = seqParsedResults (["c1,Acme,1,5,r,s,ok".data] ++ []) :=
  ⟨⟨by decide, by decide⟩,
    c10_nonempty_company_id.2 ["c1,Acme,1,5,r,s,ok".data] [] (",n,1,5,r,s,ok".data)
      (by decide) (by decide)⟩

/-- C7, witness: 10 records with a per-batch limit of 3 give 4 batches of
sizes 2, 2, 2, 4. -/
theorem c7_partition_exact_witness :
    (1 ≤ 10 ∧ 1 ≤ 3)
    ∧ ((Finset.Icc 1 (numBatches 10 3)).sum
          (batchSize 10 (numBatches 10 3) (startupsPerBatch 10 3)) = 10
      ∧ (∀ b, 1 ≤ b → b < numBatches 10 3 →
          batchSize 10 (numBatches 10 3) (startupsPerBatch 10 3) b
            = startupsPerBatch 10 3)
      ∧ ∀ i, i < 10 → ∃! b, b ∈ Finset.Icc 1 (numBatches 10 3) ∧
          batchStart (startupsPerBatch 10 3) b ≤ i ∧
          i < batchEnd 10 (numBatches 10 3) (startupsPerBatch 10 3) b) :=
  ⟨⟨by decide, by decide⟩, c7_partition_exact 10 3 (by decide) (by decide)⟩

end MtaBatch
